import Mathlib

/-!
Verification of the watchlist synchronization core of a stock-tracker web
application. The embedding covers:

* server side (`app/api/sync/route.ts`): id validation, the GET and PUT
  handlers over a key-value store, and error-message scrubbing;
* client side (`app/stocks/page.tsx`): ticker normalization and the
  watchlist mutators, sync-code generation, the join fetch, the periodic
  poll callback, and the debounced push callback.

Machine numbers are modelled as `Int` (JavaScript timestamps are ordinary
numbers and the code never overflows them); JSON values as an inductive
`JVal`; a failed fetch as `none`. Responses whose `updatedAt` field is a
non-numeric JSON value are modelled by `none` in the corresponding field,
matching the typeof check in the code.
-/

namespace MyStocks

/-! ## Character classes and string helpers -/

/-- Membership in the character class `[A-Za-z0-9_-]` used by the id regex
and by the scrub regex. -/
def idChar (c : Char) : Bool :=
  ('A' ≤ c && c ≤ 'Z') || ('a' ≤ c && c ≤ 'z') || ('0' ≤ c && c ≤ '9') ||
    c == '_' || c == '-'

/-- JavaScript whitespace as far as the repository uses it (`trim` on user
input): space, tab, newline, carriage return, form feed, vertical tab. -/
def jsWhite (c : Char) : Bool :=
  c == ' ' || c == '\t' || c == '\n' || c == '\r' ||
    c == (Char.ofNat 12) || c == (Char.ofNat 11)

/-- List-level trim: drop whitespace from both ends. -/
def trimList (l : List Char) : List Char :=
  ((l.dropWhile jsWhite).reverse.dropWhile jsWhite).reverse

/-- Embedding of `String.prototype.trim`. -/
def jsTrim (s : String) : String := ⟨trimList s.data⟩

/-- Embedding of `String.prototype.toUpperCase` (the repository only feeds
it ASCII). -/
def jsUpper (s : String) : String := ⟨s.data.map Char.toUpper⟩

/-! ## Server: `app/api/sync/route.ts` -/

/-- `validId` from `route.ts`: the regex test
`/^[a-zA-Z0-9_-]{6,64}/.test(id)` with the trailing length bound, i.e. the
whole string consists of id characters and has length between 6 and 64. -/
def validId (id : String) : Bool :=
  6 ≤ id.data.length && id.data.length ≤ 64 && id.data.all idChar

/-- JSON values as the handlers see them after parsing. -/
inductive JVal where
  | null
  | bool (b : Bool)
  | num (n : Int)
  | str (s : String)
  | arr (elems : List JVal)
  | obj (fields : List (String × JVal))
deriving Repr, Inhabited

/-- Field lookup on a JSON object; `none` when the value is not an object
or the field is absent (JavaScript property access yielding undefined). -/
def JVal.field (v : JVal) (k : String) : Option JVal :=
  match v with
  | .obj fs => (fs.find? (fun p => p.1 == k)).map Prod.snd
  | _ => none

/-- The `rows` extraction in PUT: `(bodyUnknown as ... | null)?.rows`,
where `bodyUnknown` is `null` when the request body failed to parse. -/
def rowsOfBody (body : Option JVal) : Option JVal :=
  match body with
  | none => none
  | some v => v.field "rows"

/-- One element check of PUT shape validation:
`!!v && typeof v === "object" && "ticker" in v`. Only JSON objects carry
named properties among the parsed values. -/
def hasTickerField (v : JVal) : Bool :=
  match v with
  | .obj fs => fs.any (fun p => p.1 == "ticker")
  | _ => false

/-- `okShape` from PUT: `rows` is an array and every element is an object
containing a `ticker` field. Returns the array when the shape is accepted. -/
def okShapeRows (body : Option JVal) : Option (List JVal) :=
  match rowsOfBody body with
  | some (.arr xs) => if xs.all hasTickerField then some xs else none
  | _ => none

/-- The key-value store behind the handlers (Redis, one flat keyspace).
Both `watchlist:<id>` and `watchlist:<id>:ts` live here. -/
def Store : Type := String → Option JVal

/-- The empty store. -/
def Store.empty : Store := fun _ => none

/-- Point update of the store. -/
def Store.set (st : Store) (k : String) (v : JVal) : Store :=
  fun k2 => if k2 == k then some v else st k2

/-- Read from the store. -/
def Store.get (st : Store) (k : String) : Option JVal := st k

/-- An HTTP JSON response: status code and body. -/
structure Resp where
  status : Nat
  body : JVal
deriving Repr

/-- The thrown values `safeErr` can receive: an `Error` with a message, a
plain string, or any other value. `JSON.stringify` is an external builtin;
an `other` value is modelled by the serialization string it produces. -/
inductive ErrVal where
  | err (msg : String)
  | str (s : String)
  | other (json : String)
deriving Repr, DecidableEq

/-- Embedding of `scrub`:
`s.replace(/[A-Za-z0-9_-]{20,}/g, "***")`. The global greedy regex
replaces, left to right, each maximal run of at least 20 consecutive
characters of the class `[A-Za-z0-9_-]` by three asterisks; shorter runs
and all other characters pass through. -/
def scrubList : List Char → List Char
  | [] => []
  | c :: cs =>
    if idChar c then
      (if 20 ≤ (c :: cs.takeWhile idChar).length then ['*', '*', '*']
       else c :: cs.takeWhile idChar) ++ scrubList (cs.dropWhile idChar)
    else
      c :: scrubList cs
termination_by l => l.length
decreasing_by
  · exact Nat.lt_succ_of_le ((List.dropWhile_sublist idChar).length_le)
  · exact Nat.lt_succ_self _

/-- String form of `scrub`. -/
def scrub (s : String) : String := ⟨scrubList s.data⟩

/-- The message the code extracts from the thrown value: `e.message` for an
`Error`, the string itself for a string, and the `JSON.stringify`
serialization otherwise. -/
def messageOf : ErrVal → String
  | .err m => m
  | .str s => s
  | .other j => j

/-- `safeErr` from `route.ts`: scrub the message extracted from the thrown
value. -/
def safeErr (e : ErrVal) : String := scrub (messageOf e)

/-- Response for an id failing validation. -/
def badIdResp : Resp := ⟨400, .obj [("error", .str "bad id")]⟩

/-- Response when the store backend is unconfigured. -/
def notConfiguredResp : Resp := ⟨501, .obj [("error", .str "KV not configured")]⟩

/-- The rows key for an id: `watchlist:<id>`. -/
def syncKey (id : String) : String := "watchlist:" ++ id

/-- The timestamp key for an id: `watchlist:<id>:ts`. -/
def tsKey (id : String) : String := syncKey id ++ ":ts"

/-- The GET handler of `route.ts`. `ready` is whether the store backend is
configured; `exc` injects a thrown store error (`none`: the reads
succeed). Absent keys default to `[]` and `0` respectively. -/
def handleGET (ready : Bool) (id : String) (st : Store) (exc : Option ErrVal) : Resp :=
  if !ready then notConfiguredResp
  else if !validId id then badIdResp
  else
    match exc with
    | some e => ⟨500, .obj [("error", .str (safeErr e))]⟩
    | none =>
      ⟨200, .obj [("rows", (st.get (syncKey id)).getD (.arr [])),
                  ("updatedAt", (st.get (tsKey id)).getD (.num 0))]⟩

/-- The PUT handler of `route.ts`. `now` is `Date.now()` at write time;
`exc` injects a thrown store error. On success both the rows key and the
timestamp key are written. (On an injected store error the two underlying
writes may have partially completed; no claim concerns the store after a
failed write, so the model returns it unchanged in that branch.) -/
def handlePUT (ready : Bool) (id : String) (body : Option JVal) (now : Int)
    (st : Store) (exc : Option ErrVal) : Resp × Store :=
  if !ready then (notConfiguredResp, st)
  else if !validId id then (badIdResp, st)
  else
    match okShapeRows body with
    | none => (⟨400, .obj [("error", .str "invalid rows")]⟩, st)
    | some rows =>
      match exc with
      | some e => (⟨500, .obj [("error", .str (safeErr e))]⟩, st)
      | none =>
        (⟨200, .obj [("ok", .bool true)]⟩,
         (st.set (syncKey id) (.arr rows)).set (tsKey id) (.num now))

/-! ## Client: `app/stocks/page.tsx` -/

/-- The sync status values of the client. -/
inductive SyncStatus where
  | off
  | on
  | joining
  | error
deriving Repr, DecidableEq

/-- A watchlist row. -/
structure Row where
  ticker : String
  name : String
  sector : String
  catalyst : String
deriving Repr, DecidableEq

/-- The sync-relevant client state: the watchlist (`rows` state hook), the
`lastSeenRef` timestamp, and the `syncStatus` hook. -/
structure ClientState where
  rows : List Row
  lastSeen : Int
  status : SyncStatus
deriving Repr, DecidableEq

/-- A parsed poll/join response as the callbacks inspect it. The `rows`
field is `some` exactly when the JSON field is present and an array; the
`updatedAt` field is `some` exactly when the JSON field is present and a
number (`typeof j.updatedAt === "number"`). -/
structure SyncGetResp where
  rows : Option (List Row)
  updatedAt : Option Int
deriving Repr, DecidableEq

/-- The join fetch callback (the immediately-invoked async block of the
sync effect). A failed fetch is `none`; otherwise the callback requires
`rows` to be an array, replaces the watchlist wholesale, sets
`lastSeenRef` to `Number(j.updatedAt || 0)` and the status to on. -/
def joinFetch (s : ClientState) (j : Option SyncGetResp) : ClientState :=
  match j with
  | none => { s with status := .error }
  | some jr =>
    match jr.rows with
    | none => { s with status := .error }
    | some rs =>
      { rows := rs,
        lastSeen := match jr.updatedAt with | some t => t | none => 0,
        status := .on }

/-- The periodic poll callback (the `setInterval` body of the sync
effect). A failed fetch or a non-numeric `updatedAt` sets status error
and returns; otherwise, when `updatedAt` exceeds `lastSeenRef`,
`lastSeenRef` is advanced and, if `rows` is an array, the watchlist is
overwritten; finally status is set to on. -/
def pollTick (s : ClientState) (j : Option SyncGetResp) : ClientState :=
  match j with
  | none => { s with status := .error }
  | some jr =>
    match jr.updatedAt with
    | none => { s with status := .error }
    | some t =>
      if s.lastSeen < t then
        { rows := match jr.rows with | some rs => rs | none => s.rows,
          lastSeen := t,
          status := .on }
      else
        { s with status := .on }

/-- Start of the sync effect, keyed on `syncId`: with an empty id the
status becomes off and no fetch is issued; with a non-empty id the status
becomes joining and one immediate fetch is issued. Returns the status set
and whether a fetch was issued. -/
def syncEffectStart (syncId : String) : SyncStatus × Bool :=
  if syncId = "" then (.off, false) else (.joining, true)

/-- The character class kept by `clampTicker`: the replace removes every
character outside `[A-Z0-9.\-]`. -/
def tickerChar (c : Char) : Bool :=
  ('A' ≤ c && c ≤ 'Z') || ('0' ≤ c && c ≤ '9') || c == '.' || c == '-'

/-- `clampTicker` from `page.tsx`:
`s.toUpperCase().trim().replace(/[^A-Z0-9.\-]/g, "").slice(0, 8)`. -/
def clampTicker (s : String) : String :=
  ⟨((trimList (s.data.map Char.toUpper)).filter tickerChar).take 8⟩

/-- The row built by `addRow` for a normalized ticker `t`: the name input
trimmed, defaulting to `t` when empty, and the other inputs trimmed. -/
def mkRow (t nameIn sectorIn catIn : String) : Row :=
  { ticker := t,
    name := if jsTrim nameIn = "" then t else jsTrim nameIn,
    sector := jsTrim sectorIn,
    catalyst := jsTrim catIn }

/-- `addRow` from `page.tsx`, acting on the rows state: normalize the
ticker input; return unchanged when it is empty or already present
(`prev.some(r => r.ticker === t)`); otherwise prepend the new row. -/
def addRow (rows : List Row) (tickerIn nameIn sectorIn catIn : String) : List Row :=
  let t := clampTicker tickerIn
  if t = "" then rows
  else if rows.any (fun r => r.ticker == t) then rows
  else mkRow t nameIn sectorIn catIn :: rows

/-- `removeRow` from `page.tsx`, acting on the rows state:
`prev.filter(r => r.ticker !== t)`. -/
def removeRow (rows : List Row) (t : String) : List Row :=
  rows.filter (fun r => r.ticker != t)

/-- A local mutation of the watchlist. -/
inductive WatchOp where
  | add (tickerIn nameIn sectorIn catIn : String)
  | remove (t : String)
deriving Repr, DecidableEq

/-- Apply one mutation. -/
def applyOp (rows : List Row) : WatchOp → List Row
  | .add tIn nIn sIn cIn => addRow rows tIn nIn sIn cIn
  | .remove t => removeRow rows t

/-- Run a sequence of mutations from the empty watchlist. -/
def runOps (ops : List WatchOp) : List Row :=
  ops.foldl applyOp []

/-- The alphabet of `newCode`. -/
def codeChars : List Char := "ABCDEFGHJKLMNPQRSTUVWXYZ23456789".data

/-- `newCode` from `page.tsx`: `len` characters, each indexed by
`(Math.random() * chars.length) | 0`. Since `Math.random()` lies in
`[0, 1)`, each index lies in `[0, 32)`; the draws are modelled by `rand`. -/
def newCode (len : Nat) (rand : Nat → Fin 32) : String :=
  ⟨(List.range len).map (fun i => codeChars.getD (rand i).val 'A')⟩

/-- The Link button handler of `page.tsx` acting on the `syncId` state:
`joinCode.trim().toUpperCase()`, do nothing when the result is empty,
otherwise set `syncId` to it. -/
def linkClick (joinCode syncId : String) : String :=
  let code := jsUpper (jsTrim joinCode)
  if code = "" then syncId else code

/-- A parsed PUT response: `{ok: true}` or `{error: string}` as the push
callback inspects it. -/
inductive SyncPutResp where
  | ok
  | errResp (msg : String)
deriving Repr, DecidableEq

/-- Result of one run of the debounced push callback: whether a PUT
request was issued, and the client state afterwards. -/
structure PutOutcome where
  issued : Bool
  state : ClientState
deriving Repr, DecidableEq

/-- `doPut` from the push effect of `page.tsx`: return without a request
when `syncId` is empty or the status is off or error; otherwise issue the
PUT. A failed fetch (`none`) or a response with a non-empty `error` field
(`"error" in r && r.error`) sets status error; otherwise status on. The
watchlist and `lastSeenRef` are never touched. -/
def doPut (syncId : String) (s : ClientState) (putResult : Option SyncPutResp) : PutOutcome :=
  if syncId = "" ∨ s.status = .off ∨ s.status = .error then ⟨false, s⟩
  else
    match putResult with
    | none => ⟨true, { s with status := .error }⟩
    | some .ok => ⟨true, { s with status := .on }⟩
    | some (.errResp m) =>
      if m = "" then ⟨true, { s with status := .on }⟩
      else ⟨true, { s with status := .error }⟩

/-! ## Helper lemmas -/

/-- One poll never decreases the last-seen timestamp. -/
theorem pollTick_lastSeen_le (s : ClientState) (j : Option SyncGetResp) :
    s.lastSeen ≤ (pollTick s j).lastSeen := by
  cases j with
  | none => exact le_refl _
  | some jr =>
    cases hu : jr.updatedAt with
    | none => simp [pollTick, hu]
    | some t =>
      by_cases h : s.lastSeen < t
      · simp [pollTick, hu, h]
        exact h.le
      · simp [pollTick, hu, h]

/-! ## Claims -/

/-- C1. Monotonic apply of polls: for every client state and every
successful poll response carrying a rows array and a numeric timestamp
`t`, the watchlist is overwritten by the response rows exactly when `t`
is strictly greater than `lastSeen`, in which case `lastSeen` becomes
`max` of its previous value and `t`; when `t ≤ lastSeen` the watchlist
and `lastSeen` are left untouched. -/
theorem pollTick_monotonic_apply (s : ClientState) (t : Int) (rs : List Row) :
    (s.lastSeen < t →
      pollTick s (some ⟨some rs, some t⟩) = ⟨rs, max s.lastSeen t, .on⟩) ∧
    (t ≤ s.lastSeen →
      pollTick s (some ⟨some rs, some t⟩) = { s with status := .on }) := by
  constructor
  · intro h
    simp [pollTick, h, max_eq_right h.le]
  · intro h
    simp [pollTick, not_lt.mpr h]

/-- Witness for C1: an accepted poll at timestamp 5 over last-seen 0, and
a rejected poll at timestamp 5 over last-seen 7. -/
theorem pollTick_monotonic_apply_witness :
    pollTick ⟨[], 0, .on⟩ (some ⟨some [⟨"NVDA", "NVDA", "", ""⟩], some 5⟩) =
      ⟨[⟨"NVDA", "NVDA", "", ""⟩], max 0 5, .on⟩ ∧
    pollTick ⟨[], 7, .on⟩ (some ⟨some [⟨"NVDA", "NVDA", "", ""⟩], some 5⟩) =
      ⟨[], 7, .on⟩ :=
  ⟨(pollTick_monotonic_apply ⟨[], 0, .on⟩ 5 _).1 (by decide),
   (pollTick_monotonic_apply ⟨[], 7, .on⟩ 5 _).2 (by decide)⟩

/-- C3, counterexample. A response that parses but lacks the `rows` field
(so it is not a record with the expected fields) is nevertheless
processed by the poll callback: the status does not become error and
`lastSeen` is advanced, contradicting the claim that such a poll
transitions to error and leaves `lastSeen` exactly as it was. -/
theorem pollTick_malformed_counterexample :
    (pollTick ⟨[], 0, .on⟩ (some ⟨none, some 5⟩)).status ≠ SyncStatus.error ∧
    (pollTick ⟨[], 0, .on⟩ (some ⟨none, some 5⟩)).lastSeen ≠ 0 := by
  decide

/-- C3, amended. If the poll fetch fails, or the response has no numeric
`updatedAt` field, the status becomes error and both the watchlist and
`lastSeen` are exactly what they were before the poll. -/
theorem pollTick_failure_atomic (s : ClientState) (j : Option SyncGetResp)
    (h : j = none ∨ ∃ jr, j = some jr ∧ jr.updatedAt = none) :
    pollTick s j = { s with status := .error } := by
  rcases h with h | ⟨jr, hj, hu⟩
  · subst h; rfl
  · subst hj; simp [pollTick, hu]

/-- Witness for amended C3 at a failed fetch. -/
theorem pollTick_failure_atomic_witness :
    pollTick ⟨[], 3, .on⟩ none = ⟨[], 3, .error⟩ :=
  pollTick_failure_atomic ⟨[], 3, .on⟩ none (Or.inl rfl)

/-- C4, counterexample. The join acceptance writes the remote timestamp
into `lastSeenRef` unconditionally, with no lower bound against the
preexisting value (which persists across syncId changes): joining while
`lastSeen` is 100 with a response whose `updatedAt` is 50 sets it to 50,
a decrease. -/
theorem joinFetch_lastSeen_decreases :
    (joinFetch ⟨[], 100, .joining⟩ (some ⟨some [], some 50⟩)).lastSeen < 100 := by
  decide

/-- C4, amended. Poll acceptances never decrease `lastSeen`: after any
sequence of polls it is at least its starting value; the join acceptance
instead sets `lastSeen` to the response timestamp unconditionally,
whatever the previous value was. -/
theorem lastSeen_monotone_after_join (s : ClientState)
    (js : List (Option SyncGetResp)) (rs : List Row) (t : Int) :
    s.lastSeen ≤ (js.foldl pollTick s).lastSeen ∧
    (joinFetch s (some ⟨some rs, some t⟩)).lastSeen = t := by
  constructor
  · induction js generalizing s with
    | nil => exact le_refl _
    | cons j js ih => exact le_trans (pollTick_lastSeen_le s j) (ih _)
  · rfl

/-- Witness for amended C4: two polls (one accepted, one failed) starting
from last-seen 0. -/
theorem lastSeen_monotone_after_join_witness :
    (0 : Int) ≤
      (([some ⟨some [], some 5⟩, none] : List (Option SyncGetResp)).foldl
        pollTick ⟨[], 0, .on⟩).lastSeen :=
  (lastSeen_monotone_after_join ⟨[], 0, .on⟩ [some ⟨some [], some 5⟩, none]
    [] 7).1

/-- Adding a row preserves distinctness of the tickers. -/
theorem addRow_nodup (rows : List Row) (tIn nIn sIn cIn : String)
    (h : (rows.map Row.ticker).Nodup) :
    ((addRow rows tIn nIn sIn cIn).map Row.ticker).Nodup := by
  unfold addRow
  by_cases h0 : clampTicker tIn = ""
  · simpa [h0] using h
  · cases h1 : rows.any (fun r => r.ticker == clampTicker tIn) with
    | true => simpa [h0, h1] using h
    | false =>
      simp only [h0, h1, if_false, Bool.false_eq_true, List.map_cons,
        List.nodup_cons]
      refine ⟨?_, h⟩
      intro hmem
      rcases List.mem_map.mp hmem with ⟨r, hr, hticker⟩
      have h2 := List.any_eq_false.mp h1 r hr
      simp only [mkRow] at hticker
      exact h2 (by simp [hticker])

/-- Removing a row preserves distinctness of the tickers. -/
theorem removeRow_nodup (rows : List Row) (t : String)
    (h : (rows.map Row.ticker).Nodup) :
    ((removeRow rows t).map Row.ticker).Nodup :=
  h.sublist (List.Sublist.map Row.ticker (List.filter_sublist rows))

/-- Any sequence of mutations preserves distinctness of the tickers. -/
theorem foldl_applyOp_nodup (ops : List WatchOp) (rows : List Row)
    (h : (rows.map Row.ticker).Nodup) :
    (((ops.foldl applyOp rows)).map Row.ticker).Nodup := by
  induction ops generalizing rows with
  | nil => exact h
  | cons op ops ih =>
    refine ih _ ?_
    cases op with
    | add tIn nIn sIn cIn => exact addRow_nodup rows tIn nIn sIn cIn h
    | remove t => exact removeRow_nodup rows t h

/-- C2. Ticker uniqueness: after any sequence of add and remove
operations from the empty watchlist, no two rows share a ticker; an add
whose normalized ticker is already present leaves the watchlist
unchanged, and an add of a new non-empty normalized ticker prepends its
row. -/
theorem watchlist_ticker_unique (ops : List WatchOp) :
    ((runOps ops).map Row.ticker).Nodup ∧
    (∀ tIn nIn sIn cIn,
      (runOps ops).any (fun r => r.ticker == clampTicker tIn) = true →
      addRow (runOps ops) tIn nIn sIn cIn = runOps ops) ∧
    (∀ tIn nIn sIn cIn, clampTicker tIn ≠ "" →
      (runOps ops).any (fun r => r.ticker == clampTicker tIn) = false →
      addRow (runOps ops) tIn nIn sIn cIn =
        mkRow (clampTicker tIn) nIn sIn cIn :: runOps ops) := by
  refine ⟨foldl_applyOp_nodup ops [] (by simp), ?_, ?_⟩
  · intro tIn nIn sIn cIn hmem
    unfold addRow
    by_cases h0 : clampTicker tIn = "" <;> simp [h0, hmem]
  · intro tIn nIn sIn cIn hne hmem
    unfold addRow
    simp [hmem, hne]

/-- Witness for C2: adding AAPL twice (the second input in lowercase,
normalizing to the same ticker) yields a single-row watchlist. -/
theorem watchlist_ticker_unique_witness :
    addRow (runOps [WatchOp.add "AAPL" "" "" ""]) "aapl" "" "" "" =
      runOps [WatchOp.add "AAPL" "" "" ""] :=
  (watchlist_ticker_unique [WatchOp.add "AAPL" "" "" ""]).2.1 "aapl" "" "" ""
    (by decide)

/-- C7, counterexample. The Link handler applies no format validation:
the two-character code `AB` fails the id regex, yet linking with
`" ab "` trims and uppercases it to `AB`, stores it as the syncId, and
the sync effect for `AB` transitions to joining and issues a fetch. -/
theorem link_no_validation_counterexample :
    validId "AB" = false ∧
    linkClick " ab " "" = "AB" ∧
    syncEffectStart "AB" = (SyncStatus.joining, true) := by
  decide

/-- C7, amended. Join performs no id-format validation on the client:
the Link handler trims and uppercases the entered code and rejects only
the empty result (leaving the syncId unchanged); every non-empty code,
conforming to the id regex or not, becomes the syncId, and the sync
effect for any non-empty syncId transitions to joining and issues
exactly one immediate fetch. The id regex is enforced only server-side. -/
theorem link_join_behavior (joinCode syncId : String) :
    (jsUpper (jsTrim joinCode) = "" → linkClick joinCode syncId = syncId) ∧
    (jsUpper (jsTrim joinCode) ≠ "" →
      linkClick joinCode syncId = jsUpper (jsTrim joinCode)) ∧
    (∀ id : String, id ≠ "" → syncEffectStart id = (SyncStatus.joining, true)) := by
  refine ⟨?_, ?_, ?_⟩
  · intro h; simp [linkClick, h]
  · intro h; simp [linkClick, h]
  · intro id h; simp [syncEffectStart, h]

/-- Witness for amended C7: linking with the invalid code `ab`. -/
theorem link_join_behavior_witness :
    linkClick "ab" "" = "AB" ∧ syncEffectStart "AB" = (SyncStatus.joining, true) :=
  ⟨(link_join_behavior "ab" "").2.1 (by decide),
   (link_join_behavior "ab" "").2.2 "AB" (by decide)⟩

/-- C8, counterexample. In the error status, a run of the push callback
issues no PUT at all and leaves the state untouched, contradicting the
claim that the next local mutation triggers a push from the error
state. -/
theorem doPut_error_skips_counterexample :
    doPut "ABCDEF12" ⟨[⟨"NVDA", "NVDA", "", ""⟩], 0, .error⟩ (some .ok) =
      ⟨false, ⟨[⟨"NVDA", "NVDA", "", ""⟩], 0, .error⟩⟩ := by
  decide

/-- C8, amended. When a push is issued (non-empty syncId, status on) and
fails — the fetch returns nothing or the response carries a non-empty
error field — the status becomes error and the watchlist and `lastSeen`
are not rolled back; while the status is error (as after such a
failure), the push callback issues no PUT and changes nothing, so
recovery relies on the next successful poll setting the status back to
on. -/
theorem doPut_failure_handling (syncId : String) (s : ClientState)
    (res : Option SyncPutResp) (hid : syncId ≠ "") :
    (s.status = .on → (res = none ∨ ∃ m, m ≠ "" ∧ res = some (.errResp m)) →
      doPut syncId s res = ⟨true, { s with status := .error }⟩) ∧
    (s.status = .error → doPut syncId s res = ⟨false, s⟩) := by
  constructor
  · intro hs hres
    rcases hres with h | ⟨m, hm, h⟩
    · subst h; simp [doPut, hs, hid]
    · subst h; simp [doPut, hs, hid, hm]
  · intro hs
    simp [doPut, hs]

/-- Witness for amended C8: a failed push from the on status, then a
skipped push from the resulting error status. -/
theorem doPut_failure_handling_witness :
    doPut "ABCDEF12" ⟨[], 0, .on⟩ none = ⟨true, ⟨[], 0, .error⟩⟩ ∧
    doPut "ABCDEF12" ⟨[], 0, .error⟩ (some .ok) = ⟨false, ⟨[], 0, .error⟩⟩ :=
  ⟨(doPut_failure_handling "ABCDEF12" ⟨[], 0, .on⟩ none (by decide)).1 rfl
      (Or.inl rfl),
   (doPut_failure_handling "ABCDEF12" ⟨[], 0, .error⟩ (some .ok) (by decide)).2 rfl⟩

/-- The rows key and the timestamp key of an id are distinct. -/
theorem syncKey_ne_tsKey (id : String) : syncKey id ≠ tsKey id := by
  intro h
  have hlen := congrArg String.length h
  simp [tsKey, String.length_append] at hlen
  exact (by decide : ¬(":ts".length = 0)) hlen

/-- Reading a key just written returns the written value. -/
theorem store_get_set_same (st : Store) (k : String) (v : JVal) :
    (st.set k v).get k = some v := by
  simp [Store.set, Store.get]

/-- Reading a different key is unaffected by a write. -/
theorem store_get_set_ne (st : Store) (k k2 : String) (v : JVal) (h : k2 ≠ k) :
    (st.set k v).get k2 = st.get k2 := by
  simp [Store.set, Store.get, h]

/-- With the backend configured, GET answers with the bad-id response
exactly when the id fails validation. -/
theorem handleGET_badId_iff (id : String) (st : Store) (exc : Option ErrVal) :
    (handleGET true id st exc = badIdResp ↔ validId id = false) := by
  cases hv : validId id with
  | false => simp [handleGET, hv, badIdResp]
  | true =>
    cases exc with
    | none => simp [handleGET, hv, badIdResp]
    | some e => simp [handleGET, hv, badIdResp]

/-- With the backend configured, PUT answers with the bad-id response
exactly when the id fails validation. -/
theorem handlePUT_badId_iff (id : String) (body : Option JVal) (now : Int)
    (st : Store) (exc : Option ErrVal) :
    ((handlePUT true id body now st exc).1 = badIdResp ↔ validId id = false) := by
  cases hv : validId id with
  | false => simp [handlePUT, hv, badIdResp]
  | true =>
    cases hs : okShapeRows body with
    | none => simp [handlePUT, hv, hs, badIdResp]
    | some rows => cases exc <;> simp [handlePUT, hv, hs, badIdResp]

/-- A PUT with an invalid id leaves the store unchanged. -/
theorem handlePUT_invalid_id_store (id : String) (body : Option JVal) (now : Int)
    (st : Store) (exc : Option ErrVal) (h : validId id = false) :
    (handlePUT true id body now st exc).2 = st := by
  simp [handlePUT, h]

/-- C6, counterexample. The id `SHORT1` given by the claim as a
five-character example in fact has six characters, matches the id regex,
and GET answers 200 for it against an empty store, not 400. -/
theorem shortId_counterexample :
    "SHORT1".data.length = 6 ∧ validId "SHORT1" = true ∧
    (handleGET true "SHORT1" Store.empty none).status = 200 := by
  decide

/-- C6, amended. With the store backend configured, GET and PUT answer
400 with body error "bad id" exactly when the id fails the regex
(length 6 to 64 over the id character class); the rejection happens
before any store access: the response does not depend on the store and a
rejected PUT leaves the store unchanged. A genuinely five-character id
such as `SHRT1` is rejected this way. -/
theorem badId_iff (id : String) (st : Store) (exc : Option ErrVal)
    (body : Option JVal) (now : Int) :
    (handleGET true id st exc = badIdResp ↔ validId id = false) ∧
    ((handlePUT true id body now st exc).1 = badIdResp ↔ validId id = false) ∧
    (validId id = false → (handlePUT true id body now st exc).2 = st ∧
      ∀ st2 exc2, handleGET true id st2 exc2 = badIdResp) :=
  ⟨handleGET_badId_iff id st exc, handlePUT_badId_iff id body now st exc,
   fun h => ⟨handlePUT_invalid_id_store id body now st exc h,
             fun st2 exc2 => (handleGET_badId_iff id st2 exc2).mpr h⟩⟩

/-- Witness for amended C6: the five-character id SHRT1 is rejected. -/
theorem badId_iff_witness :
    handleGET true "SHRT1" Store.empty none = badIdResp :=
  ((badId_iff "SHRT1" Store.empty none none 0).1).mpr (by decide)

/-- Each generated character is in the alphabet and in the id class. -/
theorem codeChars_spec :
    ∀ i : Fin 32, (codeChars.getD i.val 'A') ∈ codeChars ∧
      idChar (codeChars.getD i.val 'A') = true := by
  decide

/-- C9. Every string `newCode 8` returns has length 8, consists only of
characters of the 32-letter alphabet, and therefore matches the id
regex, so a freshly created sync code is never rejected by GET or PUT
with the bad-id response. -/
theorem newCode_matches_id_format (rand : Nat → Fin 32) (st : Store)
    (exc : Option ErrVal) (body : Option JVal) (now : Int) :
    (newCode 8 rand).data.length = 8 ∧
    (∀ c ∈ (newCode 8 rand).data, c ∈ codeChars) ∧
    validId (newCode 8 rand) = true ∧
    handleGET true (newCode 8 rand) st exc ≠ badIdResp ∧
    (handlePUT true (newCode 8 rand) body now st exc).1 ≠ badIdResp := by
  have hlen : (newCode 8 rand).data.length = 8 := by simp [newCode]
  have hmem : ∀ c ∈ (newCode 8 rand).data, c ∈ codeChars := by
    intro c hc
    simp only [newCode, List.mem_map, List.mem_range] at hc
    rcases hc with ⟨i, _, rfl⟩
    exact (codeChars_spec (rand i)).1
  have hvalid : validId (newCode 8 rand) = true := by
    have hall : (newCode 8 rand).data.all idChar = true := by
      refine List.all_eq_true.mpr ?_
      intro c hc
      simp only [newCode, List.mem_map, List.mem_range] at hc
      rcases hc with ⟨i, _, rfl⟩
      exact (codeChars_spec (rand i)).2
    simp [validId, hlen, hall]
  refine ⟨hlen, hmem, hvalid, ?_, ?_⟩
  · intro h
    have := (handleGET_badId_iff _ st exc).mp h
    rw [hvalid] at this
    cases this
  · intro h
    have := (handlePUT_badId_iff _ body now st exc).mp h
    rw [hvalid] at this
    cases this

/-- Witness for C9 at the constant draw 0 (an all-A code). -/
theorem newCode_matches_id_format_witness :
    validId (newCode 8 (fun _ => (0 : Fin 32))) = true :=
  (newCode_matches_id_format (fun _ => (0 : Fin 32)) Store.empty none none 0).2.2.1

/-- C5. Round trip: a PUT whose id passes validation and whose body is
accepted by the shape check, followed by a GET for the same id on the
resulting store, returns 200 with exactly the rows that were put, in
order, and an `updatedAt` equal to (hence at least) the clock value at
PUT time. -/
theorem put_get_roundtrip (id : String) (body : Option JVal) (now : Int)
    (st : Store) (rows : List JVal) (hid : validId id = true)
    (hshape : okShapeRows body = some rows) :
    (handlePUT true id body now st none).1 = ⟨200, .obj [("ok", .bool true)]⟩ ∧
    handleGET true id (handlePUT true id body now st none).2 none =
      ⟨200, .obj [("rows", .arr rows), ("updatedAt", .num now)]⟩ := by
  have h1 : (((st.set (syncKey id) (.arr rows)).set (tsKey id) (.num now)).get
      (syncKey id)) = some (.arr rows) := by
    rw [store_get_set_ne _ _ _ _ (syncKey_ne_tsKey id), store_get_set_same]
  have h2 : (((st.set (syncKey id) (.arr rows)).set (tsKey id) (.num now)).get
      (tsKey id)) = some (.num now) := store_get_set_same _ _ _
  constructor
  · simp [handlePUT, hid, hshape]
  · simp [handlePUT, handleGET, hid, hshape, h1, h2]

/-- Witness for C5: put one NVDA row under ABCDEF12 at clock 42 and read
it back. -/
theorem put_get_roundtrip_witness :
    handleGET true "ABCDEF12"
      (handlePUT true "ABCDEF12"
        (some (.obj [("rows", .arr [.obj [("ticker", .str "NVDA")]])]))
        42 Store.empty none).2 none =
      ⟨200, .obj [("rows", .arr [.obj [("ticker", .str "NVDA")]]),
                  ("updatedAt", .num 42)]⟩ :=
  (put_get_roundtrip "ABCDEF12"
    (some (.obj [("rows", .arr [.obj [("ticker", .str "NVDA")]])]))
    42 Store.empty [.obj [("ticker", .str "NVDA")]] (by decide) rfl).2

/-- Run budget: `runBound l k` holds when the run of id characters at the
start of `l` has length at most `k` and every later run of id characters
in `l` has length at most 19. -/
def runBound : List Char → Nat → Bool
  | [], _ => true
  | c :: cs, k =>
    if idChar c then
      match k with
      | 0 => false
      | k + 1 => runBound cs k
    else runBound cs 19

/-- A prefix of id characters of a budgeted list fits in the budget. -/
theorem runBound_start (mid : List Char) :
    ∀ (l : List Char) (k : Nat) (post : List Char), runBound l k = true →
      l = mid ++ post → mid.all idChar = true → mid.length ≤ k := by
  induction mid with
  | nil => intro l k post _ _ _; simp
  | cons c mid ih =>
    intro l k post hrb hdec hall
    subst hdec
    rw [List.all_cons, Bool.and_eq_true] at hall
    obtain ⟨hc, hall⟩ := hall
    rw [List.cons_append] at hrb
    cases k with
    | zero => simp [runBound, hc] at hrb
    | succ k =>
      simp only [runBound, hc, if_true] at hrb
      have hle := ih (mid ++ post) k post hrb rfl hall
      simpa [List.length_cons] using Nat.succ_le_succ hle

/-- Every infix of id characters of a budgeted list has length at most
19, provided the budget is at most 19. -/
theorem runBound_infix (pre : List Char) :
    ∀ (l : List Char) (k : Nat) (mid post : List Char), runBound l k = true →
      k ≤ 19 → l = pre ++ mid ++ post → mid.all idChar = true →
      mid.length ≤ 19 := by
  induction pre with
  | nil =>
    intro l k mid post hrb hk hdec hall
    exact le_trans
      (runBound_start mid l k post hrb (by simpa using hdec) hall) hk
  | cons p pre ih =>
    intro l k mid post hrb hk hdec hall
    subst hdec
    rw [List.cons_append] at hrb
    cases hp : idChar p with
    | true =>
      cases k with
      | zero => simp [runBound, hp] at hrb
      | succ k =>
        simp only [runBound, hp, if_true] at hrb
        exact ih _ k mid post hrb (by omega) rfl hall
    | false =>
      simp only [runBound, hp, Bool.false_eq_true, if_false] at hrb
      exact ih _ 19 mid post hrb (le_refl 19) rfl hall

/-- Prepending a short run of id characters to a budgeted list that does
not begin with an id character keeps the budget. -/
theorem runBound_append (run : List Char) :
    ∀ (l : List Char) (k : Nat), run.all idChar = true → run.length ≤ k →
      (l = [] ∨ ∃ c cs, l = c :: cs ∧ idChar c = false) →
      runBound l 19 = true → runBound (run ++ l) k = true := by
  induction run with
  | nil =>
    intro l k _ _ hl hrb
    rcases hl with rfl | ⟨c, cs, rfl, hc⟩
    · simp [runBound]
    · simp only [runBound, hc, Bool.false_eq_true, if_false] at hrb
      simp only [List.nil_append, runBound, hc, Bool.false_eq_true, if_false]
      exact hrb
  | cons c run ih =>
    intro l k hall hlen hl hrb
    rw [List.all_cons, Bool.and_eq_true] at hall
    obtain ⟨hc, hall⟩ := hall
    cases k with
    | zero => simp at hlen
    | succ k =>
      rw [List.cons_append]
      simp only [runBound, hc, if_true]
      exact ih l k hall (by simpa [List.length_cons] using hlen) hl hrb

/-- After dropping the leading id characters, a list is empty or starts
with a non-id character. -/
theorem dropWhile_head_not (cs : List Char) :
    cs.dropWhile idChar = [] ∨
      ∃ c cs2, cs.dropWhile idChar = c :: cs2 ∧ idChar c = false := by
  induction cs with
  | nil => exact Or.inl rfl
  | cons c cs ih =>
    cases hc : idChar c with
    | true => simpa [List.dropWhile_cons, hc] using ih
    | false => exact Or.inr ⟨c, cs, by simp [List.dropWhile_cons, hc], hc⟩

/-- Scrubbing preserves starting with a non-id character (or being
empty). -/
theorem scrubList_head_not (l : List Char)
    (hl : l = [] ∨ ∃ c cs, l = c :: cs ∧ idChar c = false) :
    scrubList l = [] ∨ ∃ c cs, scrubList l = c :: cs ∧ idChar c = false := by
  rcases hl with rfl | ⟨c, cs, rfl, hc⟩
  · exact Or.inl (by simp [scrubList])
  · exact Or.inr ⟨c, scrubList cs, by simp [scrubList, hc], hc⟩

/-- The output of scrubbing never begins a run of id characters longer
than 19, wherever the run starts. -/
theorem scrubList_runBound : ∀ (n : Nat) (l : List Char), l.length ≤ n →
    runBound (scrubList l) 19 = true := by
  intro n
  induction n with
  | zero =>
    intro l hl
    rw [Nat.le_zero, List.length_eq_zero] at hl
    subst hl
    simp [scrubList, runBound]
  | succ n ih =>
    intro l hl
    cases l with
    | nil => simp [scrubList, runBound]
    | cons c cs =>
      rw [List.length_cons, Nat.succ_le_succ_iff] at hl
      cases hc : idChar c with
      | false =>
        have hcs := ih cs hl
        simp only [scrubList, hc, Bool.false_eq_true, if_false, runBound]
        exact hcs
      | true =>
        have hrest : (cs.dropWhile idChar).length ≤ n :=
          le_trans (List.dropWhile_sublist idChar).length_le hl
        have hrb := ih _ hrest
        have hhead := scrubList_head_not _ (dropWhile_head_not cs)
        have hstar : idChar '*' = false := by decide
        by_cases h19 : 19 ≤ (cs.takeWhile idChar).length
        · rw [show scrubList (c :: cs) =
              ['*', '*', '*'] ++ scrubList (cs.dropWhile idChar) by
            simp [scrubList, hc, h19]]
          simp only [List.cons_append, List.nil_append, runBound, hstar,
            Bool.false_eq_true, if_false]
          exact hrb
        · rw [show scrubList (c :: cs) =
              (c :: cs.takeWhile idChar) ++ scrubList (cs.dropWhile idChar) by
            simp [scrubList, hc, h19]]
          refine runBound_append (c :: cs.takeWhile idChar) _ 19 ?_ ?_ hhead hrb
          · rw [List.all_cons, Bool.and_eq_true]
            refine ⟨hc, List.all_eq_true.mpr ?_⟩
            intro x hx
            exact List.mem_takeWhile_imp hx
          · simp only [List.length_cons]
            omega

/-- C10. Error scrubbing: a store error surfacing as a 500 response of
GET, or of a PUT that passed id and shape validation, carries exactly
`safeErr` of the thrown value, which is the extracted source message
with each maximal run of at least 20 consecutive characters of the class
used by ids replaced by three asterisks; consequently no block of
consecutive id-class characters in the returned error string reaches
length 20 (token-like substrings never leak). -/
theorem error_scrubbing (e : ErrVal) (id : String) (st : Store)
    (body : Option JVal) (now : Int) (rows : List JVal)
    (hid : validId id = true) (hshape : okShapeRows body = some rows) :
    handleGET true id st (some e) = ⟨500, .obj [("error", .str (safeErr e))]⟩ ∧
    (handlePUT true id body now st (some e)).1 =
      ⟨500, .obj [("error", .str (safeErr e))]⟩ ∧
    safeErr e = scrub (messageOf e) ∧
    (∀ pre mid post, (safeErr e).data = pre ++ mid ++ post →
      mid.all idChar = true → mid.length < 20) := by
  refine ⟨by simp [handleGET, hid], by simp [handlePUT, hid, hshape], rfl, ?_⟩
  intro pre mid post hdec hall
  have hdata : (safeErr e).data = scrubList (messageOf e).data := rfl
  rw [hdata] at hdec
  have h19 := runBound_infix pre (scrubList (messageOf e).data) 19 mid post
    (scrubList_runBound (messageOf e).data.length _ (le_refl _)) (le_refl 19)
    hdec hall
  omega

/-- Witness for C10: a 500 GET response for a thrown Error whose message
holds a 26-character token, which is scrubbed to asterisks. -/
theorem error_scrubbing_witness :
    handleGET true "ABCDEF12" Store.empty
      (some (.err "key ABCDEFGHIJKLMNOPQRSTUVWXYZ end")) =
      ⟨500, .obj [("error",
        .str (safeErr (.err "key ABCDEFGHIJKLMNOPQRSTUVWXYZ end")))]⟩ ∧
    safeErr (.err "key ABCDEFGHIJKLMNOPQRSTUVWXYZ end") = "key *** end" :=
  ⟨(error_scrubbing (.err "key ABCDEFGHIJKLMNOPQRSTUVWXYZ end") "ABCDEF12"
      Store.empty (some (.obj [("rows", .arr [])])) 0 [] (by decide) rfl).1,
   by simp +decide [safeErr, messageOf, scrub, scrubList]⟩

end MyStocks
